import Mathlib

/-!
Verification development for `atGaussianWidth.c` (astrotools 5.24 DA focus
pipeline).  The C code is embedded shallowly:

* machine `int` arithmetic is modelled by `ℤ` (the accumulations are
  overflow-guarded by design, which is what the shifts are for);
* the C arithmetic right shift `>>` is modelled by flooring division
  (`asr`), which is what `>>` computes on the two's-complement targets
  this code runs on;
* `float`/`double` quantities that stay rational (everything inside
  `lgausmom` and `atFindFocMom`) are modelled by `ℚ`;
* genuinely transcendental quantities (`exp` in `atSetFSigma`, `sqrt`
  in `atSigmaFind`) are modelled over `ℝ`;
* the C status-code convention is kept: functions return the same
  integer codes as the source (`Except Int _` or `Int × _`), and the
  distinct early-return sites of `lgausmom` are tagged by `LgErr`
  (all of them map to the single C status `-1`).
-/

/- Concrete evaluations below are discharged by `decide`; the kernel can
reduce the rational arithmetic once the four core operations are made
semireducible again. -/
unseal Rat.mul Rat.inv Rat.add Rat.sub

/-- Arithmetic right shift on `ℤ`: flooring division by `2 ^ n`,
the behaviour of the C `>>` operator on two's-complement machines. -/
def asr (a : ℤ) (n : ℕ) : ℤ := Int.fdiv a (2 ^ n)

/-- The moment record populated by `lgausmom` (fields `g_xmom`, `g_ymom`,
`g_pmom`, `g_mmom`, `g_filval` of the C `GAUSSMOM`, the ones `lgausmom`
writes). -/
structure GMom where
  g_xmom : ℚ
  g_ymom : ℚ
  g_pmom : ℚ
  g_mmom : ℚ
  g_filval : ℚ
deriving DecidableEq

/-- The full output record of `atFindFocMom` (a C `GAUSSMOM` including the
interpolated centre `g_xf`, `g_yf`). -/
structure FocMom where
  g_xf : ℚ
  g_yf : ℚ
  g_xmom : ℚ
  g_ymom : ℚ
  g_pmom : ℚ
  g_mmom : ℚ
  g_filval : ℚ
deriving DecidableEq

/-- The generated filter: the three static arrays `fgarray`, `xfgarray`,
`x2fgarray` (modelled as total functions on tap indices) together with the
validity length `sig_ncut`. -/
structure GKernel where
  fg : ℕ → ℤ
  xfg : ℕ → ℤ
  x2fg : ℕ → ℤ
  ncut : ℕ

/-- The distinct early-return sites of `lgausmom`.  In the C source all
three return the same status `-1`; the tag records which `return`
statement fired. -/
inductive LgErr where
  | edgeHigh : LgErr
  | edgeLow : LgErr
  | degenerate : LgErr
deriving DecidableEq

deriving instance DecidableEq for Except

/-- The C status code of an `lgausmom` outcome: `0` for success and `-1`
for every failure site (the source merges all of them into `-1`). -/
def lgStatus : Except LgErr GMom → Int
  | .error _ => -1
  | .ok _ => 0

/-- Per-ring partial sum `lsum` of `lgausmom`: the weighted total of the
ring at row offset `i`.  For `i = 0` the central row is not
double-counted; for `i ≠ 0` the four pixels symmetric about `(x, y)`
enter, with the matching multiple of the sky subtracted. -/
def ringLsum (k : GKernel) (p : ℤ → ℤ → ℤ) (x y sky : ℤ) (i : ℕ) : ℤ :=
  if i = 0 then
    (p y x - sky) * k.fg 0 +
      ((List.range (k.ncut - 1)).map (fun (t : ℕ) =>
        let j : ℤ := (t : ℤ) + 1
        (p y (x + j) + p y (x - j) - 2 * sky) * k.fg (t + 1))).sum
  else
    (p (y + i) x + p (y - i) x - 2 * sky) * k.fg 0 +
      ((List.range (k.ncut - 1)).map (fun (t : ℕ) =>
        let j : ℤ := (t : ℤ) + 1
        (p (y + i) (x + j) + p (y + i) (x - j) +
           p (y - i) (x + j) + p (y - i) (x - j) - 4 * sky) *
          k.fg (t + 1))).sum

/-- Per-ring partial sum `lxsum` of `lgausmom`: the x-antisymmetric
weighted sum.  The `i = 0` branch of the source subtracts `sky2` from the
pixel difference (`(*lptrpp) - (*lptrpm) - sky2`), and this embedding
keeps that term; the `i ≠ 0` branch subtracts no sky at all. -/
def ringLxsum (k : GKernel) (p : ℤ → ℤ → ℤ) (x y sky : ℤ) (i : ℕ) : ℤ :=
  if i = 0 then
    ((List.range (k.ncut - 1)).map (fun (t : ℕ) =>
      let j : ℤ := (t : ℤ) + 1
      (p y (x + j) - p y (x - j) - 2 * sky) * k.xfg (t + 1))).sum
  else
    ((List.range (k.ncut - 1)).map (fun (t : ℕ) =>
      let j : ℤ := (t : ℤ) + 1
      (p (y + i) (x + j) - p (y + i) (x - j) -
         p (y - i) (x + j) + p (y - i) (x - j)) *
        k.xfg (t + 1))).sum

/-- Per-ring partial sum `lx2sum` of `lgausmom`: the same symmetric pixel
sums as `ringLsum` but weighted by the second-order taps. -/
def ringLx2sum (k : GKernel) (p : ℤ → ℤ → ℤ) (x y sky : ℤ) (i : ℕ) : ℤ :=
  if i = 0 then
    ((List.range (k.ncut - 1)).map (fun (t : ℕ) =>
      let j : ℤ := (t : ℤ) + 1
      (p y (x + j) + p y (x - j) - 2 * sky) * k.x2fg (t + 1))).sum
  else
    ((List.range (k.ncut - 1)).map (fun (t : ℕ) =>
      let j : ℤ := (t : ℤ) + 1
      (p (y + i) (x + j) + p (y + i) (x - j) +
         p (y - i) (x + j) + p (y - i) (x - j) - 4 * sky) *
        k.x2fg (t + 1))).sum

/-- The four running totals of `lgausmom` (`sum`, `x2sum`, `y2sum`,
`xysum`). -/
structure LgSums where
  sum : ℤ
  x2sum : ℤ
  y2sum : ℤ
  xysum : ℤ
deriving DecidableEq

/-- The contribution of ring `i` to the four running totals, including the
two-stage overflow policy of the source: if `lsum` exceeds `0xfffff` the
three per-ring partials are shifted down 8 bits before the multiply,
otherwise the products are shifted down 8 bits. -/
def ringContrib (k : GKernel) (p : ℤ → ℤ → ℤ) (x y sky : ℤ) (i : ℕ) : LgSums :=
  let lsum := ringLsum k p x y sky i
  let lxsum := ringLxsum k p x y sky i
  let lx2sum := ringLx2sum k p x y sky i
  if lsum > 0xfffff then
    ⟨asr lsum 8 * k.fg i, asr lx2sum 8 * k.fg i,
     asr lsum 8 * k.x2fg i, asr lxsum 8 * k.xfg i⟩
  else
    ⟨asr (lsum * k.fg i) 8, asr (lx2sum * k.fg i) 8,
     asr (lsum * k.x2fg i) 8, asr (lxsum * k.xfg i) 8⟩

/-- The four totals accumulated over all rings `i < ncut` (the state of
`sum`, `x2sum`, `y2sum`, `xysum` at the end of the ring loop, before the
final shift). -/
def lgAccum (k : GKernel) (p : ℤ → ℤ → ℤ) (x y sky : ℤ) : LgSums :=
  (List.range k.ncut).foldl
    (fun a i =>
      let c := ringContrib k p x y sky i
      ⟨a.sum + c.sum, a.x2sum + c.x2sum, a.y2sum + c.y2sum, a.xysum + c.xysum⟩)
    ⟨0, 0, 0, 0⟩

/-- The four totals after the final 5-bit right shift. -/
def lgSumsFinal (k : GKernel) (p : ℤ → ℤ → ℤ) (x y sky : ℤ) : LgSums :=
  let a := lgAccum k p x y sky
  ⟨asr a.sum 5, asr a.x2sum 5, asr a.y2sum 5, asr a.xysum 5⟩

/-- Shallow embedding of `lgausmom`.  `p` is the image addressed `p row
col`; `xsz` is accepted but never inspected, exactly as in the source
(it is marked NOTUSED there).  The two edge checks on `y` and the
zero-integral check are the three failure sites. -/
def lgausmom (p : ℤ → ℤ → ℤ) (xsz ysz : ℤ) (x y sky : ℤ) (k : GKernel) :
    Except LgErr GMom :=
  if (k.ncut : ℤ) + y > ysz then .error .edgeHigh
  else if (k.ncut : ℤ) > y + 1 then .error .edgeLow
  else
    let s := lgSumsFinal k p x y sky
    if s.sum = 0 then .error .degenerate
    else
      .ok ⟨((2 * s.x2sum - s.sum : ℤ) : ℚ) / (s.sum : ℚ),
           ((2 * s.y2sum - s.sum : ℤ) : ℚ) / (s.sum : ℚ),
           ((s.x2sum - 2 * s.xysum + s.y2sum - s.sum : ℤ) : ℚ) / (s.sum : ℚ),
           ((s.x2sum + 2 * s.xysum + s.y2sum - s.sum : ℤ) : ℚ) / (s.sum : ℚ),
           (s.sum : ℚ)⟩

/-- A tiny concrete kernel used for concrete evaluations: a single tap of
weight 512 (so `lgausmom` reduces the image to `32 * p y x`). -/
def kOne : GKernel := ⟨fun i => if i = 0 then 512 else 0, fun _ => 0, fun _ => 0, 1⟩

/-- Outcome of one 3x3 scan of `atFindFocMom`: either the first neighbour
whose `filval` beats the centre (with the pixel offset toward it), or the
complete grid of nine successful moment evaluations (`val[i][j]` in the
order `v<i><j>`, row index `i` along y, column index `j` along x). -/
inductive ScanRes where
  | restart (dx dy : ℤ) : ScanRes
  | grid (v00 v01 v02 v10 v11 v12 v20 v21 v22 : GMom) : ScanRes
deriving DecidableEq

/-- One pass of the 3x3 evaluation loop of `atFindFocMom` (source lines
399-427): evaluate the centre, then the eight neighbours in row-major
order, stopping at the first failure (any `lgausmom` error) or at the
first neighbour strictly brighter than the centre. -/
def scan3 (p : ℤ → ℤ → ℤ) (xsz ysz : ℤ) (x y sky : ℤ) (k : GKernel) :
    Except LgErr ScanRes :=
  match lgausmom p xsz ysz x y sky k with
  | .error e => .error e
  | .ok c =>
    match lgausmom p xsz ysz (x - 1) (y - 1) sky k with
    | .error e => .error e
    | .ok v00 =>
      if v00.g_filval > c.g_filval then .ok (.restart (-1) (-1)) else
      match lgausmom p xsz ysz x (y - 1) sky k with
      | .error e => .error e
      | .ok v01 =>
        if v01.g_filval > c.g_filval then .ok (.restart 0 (-1)) else
        match lgausmom p xsz ysz (x + 1) (y - 1) sky k with
        | .error e => .error e
        | .ok v02 =>
          if v02.g_filval > c.g_filval then .ok (.restart 1 (-1)) else
          match lgausmom p xsz ysz (x - 1) y sky k with
          | .error e => .error e
          | .ok v10 =>
            if v10.g_filval > c.g_filval then .ok (.restart (-1) 0) else
            match lgausmom p xsz ysz (x + 1) y sky k with
            | .error e => .error e
            | .ok v12 =>
              if v12.g_filval > c.g_filval then .ok (.restart 1 0) else
              match lgausmom p xsz ysz (x - 1) (y + 1) sky k with
              | .error e => .error e
              | .ok v20 =>
                if v20.g_filval > c.g_filval then .ok (.restart (-1) 1) else
                match lgausmom p xsz ysz x (y + 1) sky k with
                | .error e => .error e
                | .ok v21 =>
                  if v21.g_filval > c.g_filval then .ok (.restart 0 1) else
                  match lgausmom p xsz ysz (x + 1) (y + 1) sky k with
                  | .error e => .error e
                  | .ok v22 =>
                    if v22.g_filval > c.g_filval then .ok (.restart 1 1) else
                    .ok (.grid v00 v01 v02 v10 c v12 v20 v21 v22)

/-- The iteration bound `FINDERR` of `atFindFocMom`. -/
def FINDERR : ℕ := 15

/-- The flatness threshold `EPS` of the source, as a rational. -/
def EPSq : ℚ := 1 / 10000000000

/-- The curvature / interpolation stage of `atFindFocMom` (source lines
430-492), applied to a confirmed 3x3 grid of moment evaluations.  `ret`
is the value of the retry counter at this point.  The half-pixel
constants `DXF = DYF = 0.5` are included. -/
def focInterp (x y : ℤ) (ret : ℕ)
    (v00 v01 v02 v10 v11 v12 v20 v21 v22 : GMom) :
    Except Int (FocMom × ℕ) :=
  let vc := v11.g_filval
  let d2x := 2 * vc - v12.g_filval - v10.g_filval
  if d2x < EPSq then .error (-3) else
  let sx := (v12.g_filval - v10.g_filval) / 2
  let dx := sx / d2x
  let d2y := 2 * vc - v21.g_filval - v01.g_filval
  if d2y < EPSq then .error (-3) else
  let sy := (v21.g_filval - v01.g_filval) / 2
  let dy := sy / d2y
  let d2p := 2 * vc - v22.g_filval - v00.g_filval
  if d2p < EPSq then .error (-3) else
  let sp := (v22.g_filval - v00.g_filval) / 2
  let dp := sp / d2p
  let d2m := 2 * vc - v20.g_filval - v02.g_filval
  if d2m < EPSq then .error (-3) else
  let sm := (v20.g_filval - v02.g_filval) / 2
  let dm := sm / d2m
  let xf := (x : ℚ) + dx + 1 / 2
  let yf := (y : ℚ) + dy + 1 / 2
  let v0 := vc + (sx * sx / d2x + sy * sy / d2y) / 2
  let xvc := v11.g_xmom
  let yvc := v11.g_ymom
  let pvc := v11.g_pmom
  let mvc := v11.g_mmom
  let xd2x := 2 * xvc - v12.g_xmom - v10.g_xmom
  let xd2y := 2 * xvc - v21.g_xmom - v01.g_xmom
  let xsx := (v12.g_xmom - v10.g_xmom) / 2
  let xsy := (v21.g_xmom - v01.g_xmom) / 2
  let yd2x := 2 * yvc - v12.g_ymom - v10.g_ymom
  let yd2y := 2 * yvc - v21.g_ymom - v01.g_ymom
  let ysx := (v12.g_ymom - v10.g_ymom) / 2
  let ysy := (v21.g_ymom - v01.g_ymom) / 2
  let pd2p := 2 * pvc - v22.g_pmom - v00.g_pmom
  let pd2m := 2 * pvc - v20.g_pmom - v02.g_pmom
  let psp := (v22.g_pmom - v00.g_pmom) / 2
  let psm := (v20.g_pmom - v02.g_pmom) / 2
  let md2p := 2 * mvc - v22.g_mmom - v00.g_mmom
  let md2m := 2 * mvc - v20.g_mmom - v02.g_mmom
  let msp := (v22.g_mmom - v00.g_mmom) / 2
  let msm := (v20.g_mmom - v02.g_mmom) / 2
  .ok (⟨xf, yf,
        xvc + xsx * dx + xsy * dy - (dx * dx * xd2x + dy * dy * xd2y) / 2,
        yvc + ysx * dx + ysy * dy - (dx * dx * yd2x + dy * dy * yd2y) / 2,
        pvc + psp * dp + psm * dm - (dp * dp * pd2p + dm * dm * pd2m) / 2,
        mvc + msp * dp + msm * dm - (dp * dp * md2p + dm * dm * md2m) / 2,
        v0 / 32⟩, ret)

/-- The `start:` loop of `atFindFocMom`.  The C code carries a retry
counter `ret` and bails out with status `-1` as soon as `ret >= FINDERR`;
here the recursion is driven by the remaining budget `gas = FINDERR - ret`
(so `gas = 0` is exactly the `ret >= FINDERR` exit, and the value
returned on success is `ret = FINDERR - gas` for the entry `gas`).  Each
pass checks the edge condition, runs the 3x3 scan, and either restarts at
the brighter neighbour with one unit of budget consumed, fails, or runs
the interpolation stage. -/
def focGo (p : ℤ → ℤ → ℤ) (xsz ysz sky : ℤ) (k : GKernel) :
    ℤ → ℤ → ℕ → Except Int (FocMom × ℕ)
  | _, _, 0 => .error (-1)
  | x, y, gas + 1 =>
    if x < (k.ncut : ℤ) ∨ y < (k.ncut : ℤ) ∨
        x > xsz - (k.ncut : ℤ) - 1 ∨ y > ysz - (k.ncut : ℤ) - 1 then
      .error (-1)
    else
      match scan3 p xsz ysz x y sky k with
      | .error _ => .error (-2)
      | .ok (.restart dx dy) => focGo p xsz ysz sky k (x + dx) (y + dy) gas
      | .ok (.grid v00 v01 v02 v10 v11 v12 v20 v21 v22) =>
        focInterp x y (FINDERR - (gas + 1)) v00 v01 v02 v10 v11 v12 v20 v21 v22

/-- Shallow embedding of `atFindFocMom`: run the retry loop with the full
budget `FINDERR`.  On success the second component is the C return value
(the number of tries needed to find the maximum pixel); errors carry the
C status codes `-1`, `-2`, `-3`. -/
def atFindFocMom (p : ℤ → ℤ → ℤ) (xsz ysz : ℤ) (x y sky : ℤ) (k : GKernel) :
    Except Int (FocMom × ℕ) :=
  focGo p xsz ysz sky k x y FINDERR

/-- A peaked test image: value 2 at pixel (20, 20), value 1 elsewhere. -/
def pPeak : ℤ → ℤ → ℤ := fun r c => if r = 20 ∧ c = 20 then 2 else 1

/-- C conversion of a floating value to an integer: truncation toward
zero (`(short)` / `(int)` casts in the source). -/
noncomputable def cint (r : ℝ) : ℤ := if 0 ≤ r then ⌊r⌋ else ⌈r⌉

/-- The constant `SIZFIL`, the fixed length of the static filter arrays. -/
def SIZFIL : ℕ := 50

/-- The mutable module state of the filter table: the three static arrays
with their validity length (`GKernel`) and `sigmagen`, the width parameter
of the last generated filter. -/
structure FilterState where
  k : GKernel
  sigmagen : ℝ

/-- The initial state of the C module: all static arrays are zero,
`sig_ncut = 0`, `sigmagen = 0`. -/
def initFState : FilterState := ⟨⟨fun _ => 0, fun _ => 0, fun _ => 0, 0⟩, 0⟩

/-- The half-width `ncut = 4.*sigma + 1.5` of `atSetFSigma` (float-to-int truncation;
for the admissible range `0 < sigma ≤ 12` the value is in `[1, 49]`). -/
noncomputable def genNcut (σ : ℝ) : ℕ := (cint (4 * σ + 1.5)).toNat

/-- The untruncated Gaussian value `gau` computed for tap `i` by
`atSetFSigma`: `512 exp(-i² sig2inv) - edge + 0.5` with
`sig2inv = 0.5/σ²` and `edge = 512 exp(-ncut² sig2inv)`. -/
noncomputable def genGau (σ : ℝ) (i : ℕ) : ℝ :=
  512 * Real.exp (-((i : ℝ) * (i : ℝ) * (0.5 / (σ * σ)))) -
    512 * Real.exp (-((genNcut σ : ℝ) * (genNcut σ : ℝ) * (0.5 / (σ * σ)))) + 0.5

/-- The new `fgarray` written by `atSetFSigma`: taps `[0, ncut)` get the
truncated Gaussian, taps `[ncut, SIZFIL)` are zeroed by the clean-up
loop, and taps beyond `SIZFIL` (which do not exist in C) stay. -/
noncomputable def genFg (σ : ℝ) (prev : ℕ → ℤ) : ℕ → ℤ := fun i =>
  if i < genNcut σ then cint (genGau σ i)
  else if i < SIZFIL then 0 else prev i

/-- The new `xfgarray`: taps `[0, ncut)` get `i·gau/σ` truncated; all
other entries are left as they were (the source only zeroes `fgarray`). -/
noncomputable def genXfg (σ : ℝ) (prev : ℕ → ℤ) : ℕ → ℤ := fun i =>
  if i < genNcut σ then cint ((i : ℝ) * genGau σ i * (1 / σ)) else prev i

/-- The new `x2fgarray`: taps `[0, ncut)` get `2·gau·isig2` truncated;
all other entries are left as they were. -/
noncomputable def genX2fg (σ : ℝ) (prev : ℕ → ℤ) : ℕ → ℤ := fun i =>
  if i < genNcut σ then
    cint (2 * genGau σ i * ((i : ℝ) * (i : ℝ) * (0.5 / (σ * σ))))
  else prev i

/-- The `sig_ncut` trimming of the generation loop: starting from `ncut`,
every index `i ≠ 0` with a zero second-order tap overwrites `sig_ncut`,
so the final value is the last such index (or `ncut` if there is none). -/
def trimNcut (x2 : ℕ → ℤ) (n : ℕ) : ℕ :=
  (List.range n).foldl (fun acc i => if x2 i = 0 ∧ i ≠ 0 then i else acc) n

/-- Shallow embedding of `atSetFSigma`, as a state transformer returning
the C status code.  Out-of-range sigma returns `-1` without touching the
state; a repeated sigma is a memoised no-op; otherwise the three arrays,
the trimmed `sig_ncut` and `sigmagen` are replaced. -/
noncomputable def atSetFSigma (σ : ℝ) (st : FilterState) : Int × FilterState :=
  if σ ≤ 0 ∨ 12 < σ then (-1, st)
  else if σ = st.sigmagen then (0, st)
  else
    let xfg := genXfg σ st.k.xfg
    let x2fg := genX2fg σ st.k.x2fg
    (0, ⟨⟨genFg σ st.k.fg, xfg, x2fg, trimNcut x2fg (genNcut σ)⟩, σ⟩)

/-- The constant `SIGGUESS`, the default initial width parameter of `atSigmaFind`. -/
noncomputable def SIGGUESS : ℝ := 1.2

/-- The constant `SIGITERAT`, the iteration limit of `atSigmaFind`. -/
def SIGITERAT : ℕ := 10

/-- The tolerance `SIGERR`, as a rational (for the moment
test, whose operands are rational in this embedding). -/
def SIGERRq : ℚ := 1 / 100

/-- The tolerance `SIGERR` as a real (for the sigma-change test). -/
noncomputable def SIGERR : ℝ := 1 / 100

/-- The multiplicative sigma update of `atSigmaFind`:
`sig * sqrt((2 + mom)/(2 - mom))`. -/
noncomputable def sigUpdate (sig : ℝ) (mom : ℚ) : ℝ :=
  sig * Real.sqrt ((2 + (mom : ℝ)) / (2 - (mom : ℝ)))

/-- The iteration loop of `atSigmaFind` (source lines 560-575), with its
two callees abstracted: `setF` stands for `atSetFSigma` acting on the
module state and `ev` for the `atFindFocMom` call made with that state.
Each pass regenerates the filter (status `< 0` gives `-1`), evaluates the
moments (an error `e` gives `e - 3`), rejects any moment outside `(-1, 1)`
with `-2`, declares convergence if `|mom| < SIGERR`, otherwise applies the
multiplicative update and also declares convergence if the scaled sigma
change is below `SIGERR`; exhausting the budget gives `-3`. -/
noncomputable def sigLoopGen {S : Type} (setF : ℝ → S → Int × S)
    (ev : S → Except Int (FocMom × ℕ)) : ℝ → S → ℕ → Except Int (ℝ × FocMom)
  | _, _, 0 => .error (-3)
  | sig, st, fuel + 1 =>
    if (setF sig st).1 < 0 then .error (-1)
    else
      match ev (setF sig st).2 with
      | .error e => .error (e - 3)
      | .ok (gm, _) =>
        if gm.g_xmom ≤ -1 ∨ 1 ≤ gm.g_xmom then .error (-2)
        else if gm.g_ymom ≤ -1 ∨ 1 ≤ gm.g_ymom then .error (-2)
        else if gm.g_pmom ≤ -1 ∨ 1 ≤ gm.g_pmom then .error (-2)
        else if gm.g_mmom ≤ -1 ∨ 1 ≤ gm.g_mmom then .error (-2)
        else if |gm.g_xmom + gm.g_ymom| < SIGERRq then .ok (sig, gm)
        else if 2 * |sig - sigUpdate sig (gm.g_xmom + gm.g_ymom)| < SIGERR then
          .ok (sigUpdate sig (gm.g_xmom + gm.g_ymom), gm)
        else
          sigLoopGen setF ev (sigUpdate sig (gm.g_xmom + gm.g_ymom))
            (setF sig st).2 fuel

/-- Shallow embedding of `atSigmaFind`: a negative caller-supplied sigma
is replaced by `SIGGUESS`, then the loop runs with the real filter table
and `atFindFocMom` as its callees, with budget `SIGITERAT`. -/
noncomputable def atSigmaFind (p : ℤ → ℤ → ℤ) (xsz ysz : ℤ) (x y sky : ℤ)
    (st : FilterState) (sig : ℝ) : Except Int (ℝ × FocMom) :=
  sigLoopGen atSetFSigma (fun s => atFindFocMom p xsz ysz x y sky s.k)
    (if sig < 0 then SIGGUESS else sig) st SIGITERAT

/-- The in-range condition on the four moments that the solver loop
checks (the negation of its four `-2` exits). -/
def momInRange (gm : FocMom) : Prop :=
  -1 < gm.g_xmom ∧ gm.g_xmom < 1 ∧ -1 < gm.g_ymom ∧ gm.g_ymom < 1 ∧
    -1 < gm.g_pmom ∧ gm.g_pmom < 1 ∧ -1 < gm.g_mmom ∧ gm.g_mmom < 1

/-- Specification-side predicate for the solver claim: along the loop's
own trajectory, every iteration that actually runs has a successful
filter generation, a successful moment evaluation, and in-range moments
(the claim's hypothesis that no per-iteration error occurs). -/
def sigNoErr {S : Type} (setF : ℝ → S → Int × S)
    (ev : S → Except Int (FocMom × ℕ)) : ℝ → S → ℕ → Prop
  | _, _, 0 => True
  | sig, st, fuel + 1 =>
    0 ≤ (setF sig st).1 ∧
      ∃ gm n, ev (setF sig st).2 = .ok (gm, n) ∧ momInRange gm ∧
        (¬ |gm.g_xmom + gm.g_ymom| < SIGERRq →
          ¬ 2 * |sig - sigUpdate sig (gm.g_xmom + gm.g_ymom)| < SIGERR →
            sigNoErr setF ev (sigUpdate sig (gm.g_xmom + gm.g_ymom))
              (setF sig st).2 fuel)

/-- Specification-side predicate for the solver claim: some iteration
within the budget passes one of the two convergence tests — `|mom| <
SIGERR` before the update, or a scaled sigma change below `SIGERR` after
the update `sig * sqrt((2+mom)/(2-mom))`. -/
def sigConverges {S : Type} (setF : ℝ → S → Int × S)
    (ev : S → Except Int (FocMom × ℕ)) : ℝ → S → ℕ → Prop
  | _, _, 0 => False
  | sig, st, fuel + 1 =>
    ∃ gm n, ev (setF sig st).2 = .ok (gm, n) ∧
      (|gm.g_xmom + gm.g_ymom| < SIGERRq ∨
        2 * |sig - sigUpdate sig (gm.g_xmom + gm.g_ymom)| < SIGERR ∨
        sigConverges setF ev (sigUpdate sig (gm.g_xmom + gm.g_ymom))
          (setF sig st).2 fuel)

/-- Whether an `lgausmom` outcome is one of the two edge-proximity
failures (as opposed to success or the zero-integral failure). -/
def isEdgeErr : Except LgErr GMom → Bool
  | .error .edgeHigh => true
  | .error .edgeLow => true
  | _ => false

/-- A two-tap concrete kernel (`ncut = 2`). -/
def kTwo : GKernel :=
  ⟨fun i => if i = 0 then 512 else if i = 1 then 100 else 0,
   fun i => if i = 1 then 1 else 0,
   fun _ => 0, 2⟩

/-- A linear ramp image: every row equals the column index. -/
def pRamp : ℤ → ℤ → ℤ := fun _ c => c

/-- An image that is 1 on non-negative columns and 0 on negative ones
(agrees with the constant-1 image on every column inside any frame). -/
def pHalf : ℤ → ℤ → ℤ := fun _ c => if 0 ≤ c then 1 else 0

/-- The constant-1 image. -/
def pFlat1 : ℤ → ℤ → ℤ := fun _ _ => 1

/-- The constant-0 image. -/
def pFlat0 : ℤ → ℤ → ℤ := fun _ _ => 0

/-- A trivial solver-state transformer for exercising the abstract solver
loop: filter generation always succeeds and does not change the state. -/
def setFZero : ℝ → Unit → Int × Unit := fun _ s => (0, s)

/-- A trivial moment evaluator for exercising the abstract solver loop:
always returns the all-zero moment record. -/
def evZero : Unit → Except Int (FocMom × ℕ) := fun _ => .ok (⟨0, 0, 0, 0, 0, 0, 0⟩, 0)

/-- C2: for every in-bounds evaluation, `lgausmom` fails with the
zero-integral (`DegenerateIntegral`) error exactly when the final shifted
zeroth total is zero, and otherwise returns `xmom = (2 x2sum - fsum)/fsum`,
`ymom = (2 y2sum - fsum)/fsum`, `pmom = (x2sum - 2 xysum + y2sum -
fsum)/fsum`, `mmom = (x2sum + 2 xysum + y2sum - fsum)/fsum` and `filval =
fsum`, where the totals are the running sums after the final 5-bit right
shift. -/
theorem lgausmom_finalization (p : ℤ → ℤ → ℤ) (xsz ysz x y sky : ℤ)
    (k : GKernel) (h1 : ¬((k.ncut : ℤ) + y > ysz))
    (h2 : ¬((k.ncut : ℤ) > y + 1)) :
    (lgausmom p xsz ysz x y sky k = .error .degenerate ↔
      (lgSumsFinal k p x y sky).sum = 0) ∧
    ((lgSumsFinal k p x y sky).sum ≠ 0 →
      lgausmom p xsz ysz x y sky k =
        .ok ⟨((2 * (lgSumsFinal k p x y sky).x2sum -
                (lgSumsFinal k p x y sky).sum : ℤ) : ℚ) /
               ((lgSumsFinal k p x y sky).sum : ℚ),
             ((2 * (lgSumsFinal k p x y sky).y2sum -
                (lgSumsFinal k p x y sky).sum : ℤ) : ℚ) /
               ((lgSumsFinal k p x y sky).sum : ℚ),
             (((lgSumsFinal k p x y sky).x2sum -
                2 * (lgSumsFinal k p x y sky).xysum +
                (lgSumsFinal k p x y sky).y2sum -
                (lgSumsFinal k p x y sky).sum : ℤ) : ℚ) /
               ((lgSumsFinal k p x y sky).sum : ℚ),
             (((lgSumsFinal k p x y sky).x2sum +
                2 * (lgSumsFinal k p x y sky).xysum +
                (lgSumsFinal k p x y sky).y2sum -
                (lgSumsFinal k p x y sky).sum : ℤ) : ℚ) /
               ((lgSumsFinal k p x y sky).sum : ℚ),
             ((lgSumsFinal k p x y sky).sum : ℚ)⟩) := by
  constructor
  · simp only [lgausmom, if_neg h1, if_neg h2]
    by_cases h : (lgSumsFinal k p x y sky).sum = 0 <;> simp [h]
  · intro h
    simp only [lgausmom, if_neg h1, if_neg h2, if_neg h]

/-- Witness for `lgausmom_finalization` at a concrete in-bounds input. -/
theorem lgausmom_finalization_witness :
    lgausmom pFlat1 100 100 5 5 0 kOne = .ok ⟨-1, -1, -1, -1, 32⟩ := by
  have h := (lgausmom_finalization pFlat1 100 100 5 5 0 kOne
    (by decide) (by decide)).2 (by decide)
  rw [h]
  decide

/-- Shared helper: the exact condition under which `lgausmom` takes one
of its two edge-proximity exits. -/
lemma edgeIffAux (p : ℤ → ℤ → ℤ) (xsz ysz x y sky : ℤ)
    (k : GKernel) :
    isEdgeErr (lgausmom p xsz ysz x y sky k) = true ↔
      (y + 1 < (k.ncut : ℤ) ∨ ysz < (k.ncut : ℤ) + y) := by
  by_cases hA : (k.ncut : ℤ) + y > ysz
  · simp only [lgausmom, if_pos hA]
    simp [isEdgeErr]
    omega
  · rw [show lgausmom p xsz ysz x y sky k =
        (if (k.ncut : ℤ) > y + 1 then .error .edgeLow else
          if (lgSumsFinal k p x y sky).sum = 0 then .error .degenerate
          else lgausmom p xsz ysz x y sky k) from ?_]
    · by_cases hB : (k.ncut : ℤ) > y + 1
      · rw [if_pos hB]
        simp [isEdgeErr]
        omega
      · rw [if_neg hB]
        by_cases hs : (lgSumsFinal k p x y sky).sum = 0
        · rw [if_pos hs]
          simp [isEdgeErr]
          omega
        · rw [if_neg hs]
          simp only [lgausmom, if_neg hA, if_neg hB, if_neg hs]
          simp [isEdgeErr]
          omega
    · by_cases hB : (k.ncut : ℤ) > y + 1
      · simp only [lgausmom, if_neg hA, if_pos hB]
      · by_cases hs : (lgSumsFinal k p x y sky).sum = 0
        · simp only [lgausmom, if_neg hA, if_neg hB, if_pos hs]
        · simp only [if_neg hB, if_neg hs]

/-- C3 (amended): `lgausmom` fails with an edge-proximity error exactly
when the rows it actually reads, `y - (ncut-1)` through `y + (ncut-1)`,
do not all lie inside `[0, ysz)`: that is, iff `y + 1 < ncut` or
`ysz < ncut + y`.  (The source checks `ncut + y > ysz` and `ncut > y + 1`,
one pixel laxer on both sides than the spec's `[y - ncut, y + ncut]`.) -/
theorem lgausmom_edge_iff (p : ℤ → ℤ → ℤ) (xsz ysz x y sky : ℤ)
    (k : GKernel) :
    isEdgeErr (lgausmom p xsz ysz x y sky k) = true ↔
      (y + 1 < (k.ncut : ℤ) ∨ ysz < (k.ncut : ℤ) + y) :=
  edgeIffAux p xsz ysz x y sky k

/-- Counterexample to C3 as stated: at `y = 1` with `ncut = 2` the spec's
neighbourhood `[y - ncut, y + ncut] = [-1, 3]` leaves `[0, ysz)`, so the
claim demands an edge failure, but the code accepts this row and returns
a successful evaluation. -/
theorem lgausmom_edge_claim_false :
    (1 : ℤ) < (kTwo.ncut : ℤ) ∧
      isEdgeErr (lgausmom pFlat1 100 10 5 1 0 kTwo) = false := by
  constructor
  · decide
  · decide

/-- C5 (code bug): the central-ring x-antisymmetric partial sum is not a
pure pixel difference: the source subtracts `sky2` from each difference
term (`(*lptrpp) - (*lptrpm) - sky2`), so on a constant image (where every
difference is zero) the ring-0 partial changes from 0 to -2 when the sky
estimate changes from 0 to 1, while the `i ≠ 0` rings are (correctly)
sky-independent. -/
theorem ringLxsum_sky_dependent :
    ringLxsum kTwo (fun _ _ => 5) 10 10 0 0 = 0 ∧
    ringLxsum kTwo (fun _ _ => 5) 10 10 1 0 = -2 ∧
    ringLxsum kTwo (fun _ _ => 5) 10 10 0 1 =
      ringLxsum kTwo (fun _ _ => 5) 10 10 1 1 := by
  refine ⟨by decide, by decide, by decide⟩

/-- Auxiliary for the locality lemmas: the pixel agreements needed by
ring `i`, packaged from an agreement on the square of half-width
`ncut - 1` around `(x, y)`. -/
lemma ringAgree {k : GKernel} {p q : ℤ → ℤ → ℤ} {x y : ℤ} {i : ℕ}
    (hi : i < k.ncut)
    (h : ∀ r c : ℤ, |r - y| < (k.ncut : ℤ) → |c - x| < (k.ncut : ℤ) →
      p r c = q r c) :
    (∀ c : ℤ, |c - x| < (k.ncut : ℤ) → p y c = q y c) ∧
    (∀ c : ℤ, |c - x| < (k.ncut : ℤ) → p (y + i) c = q (y + i) c) ∧
    (∀ c : ℤ, |c - x| < (k.ncut : ℤ) → p (y - i) c = q (y - i) c) := by
  have hii : |(i : ℤ)| < (k.ncut : ℤ) := by
    rw [Int.abs_natCast]
    exact_mod_cast hi
  refine ⟨fun c hc => h y c ?_ hc,
          fun c hc => h (y + i) c ?_ hc,
          fun c hc => h (y - i) c ?_ hc⟩
  · rw [sub_self, abs_zero]
    exact lt_of_le_of_lt (abs_nonneg _) hii
  · rwa [add_sub_cancel_left]
  · rwa [sub_sub_cancel_left, abs_neg]

/-- Auxiliary for the locality lemmas: columns touched by the inner loop
are within the half-width. -/
lemma colAgree {k : GKernel} {x : ℤ} {t : ℕ} (ht : t ∈ List.range (k.ncut - 1)) :
    |x + ((t : ℤ) + 1) - x| < (k.ncut : ℤ) ∧
    |x - ((t : ℤ) + 1) - x| < (k.ncut : ℤ) ∧ |x - x| < (k.ncut : ℤ) := by
  rw [List.mem_range] at ht
  have h1 : |(t : ℤ) + 1| < (k.ncut : ℤ) := by
    rw [abs_of_nonneg (by positivity)]
    omega
  refine ⟨?_, ?_, ?_⟩
  · rwa [add_sub_cancel_left]
  · rwa [sub_sub_cancel_left, abs_neg]
  · rw [sub_self, abs_zero]
    exact lt_of_le_of_lt (abs_nonneg _) h1

/-- The partial sum `ringLsum` reads only pixels within `ncut - 1` of `(x, y)`. -/
lemma ringLsum_congr {k : GKernel} {p q : ℤ → ℤ → ℤ} {x y : ℤ} (sky : ℤ)
    {i : ℕ} (hi : i < k.ncut)
    (h : ∀ r c : ℤ, |r - y| < (k.ncut : ℤ) → |c - x| < (k.ncut : ℤ) →
      p r c = q r c) :
    ringLsum k p x y sky i = ringLsum k q x y sky i := by
  obtain ⟨h0, hp, hm⟩ := ringAgree hi h
  have hx : |x - x| < (k.ncut : ℤ) := by
    rw [sub_self, abs_zero]
    exact_mod_cast Nat.pos_of_ne_zero (by omega)
  unfold ringLsum
  by_cases hz : i = 0
  · subst hz
    rw [if_pos rfl, if_pos rfl, h0 x hx]
    exact congrArg (fun s => (q y x - sky) * k.fg 0 + s)
      (congrArg List.sum (List.map_congr_left fun t ht => by
        dsimp only
        obtain ⟨c1, c2, _⟩ := colAgree (k := k) (x := x) ht
        rw [h0 _ c1, h0 _ c2]))
  · rw [if_neg hz, if_neg hz, hp x hx, hm x hx]
    exact congrArg (fun s => (q (y + i) x + q (y - i) x - 2 * sky) * k.fg 0 + s)
      (congrArg List.sum (List.map_congr_left fun t ht => by
        dsimp only
        obtain ⟨c1, c2, _⟩ := colAgree (k := k) (x := x) ht
        rw [hp _ c1, hp _ c2, hm _ c1, hm _ c2]))

/-- The partial sum `ringLxsum` reads only pixels within `ncut - 1` of `(x, y)`. -/
lemma ringLxsum_congr {k : GKernel} {p q : ℤ → ℤ → ℤ} {x y : ℤ} (sky : ℤ)
    {i : ℕ} (hi : i < k.ncut)
    (h : ∀ r c : ℤ, |r - y| < (k.ncut : ℤ) → |c - x| < (k.ncut : ℤ) →
      p r c = q r c) :
    ringLxsum k p x y sky i = ringLxsum k q x y sky i := by
  obtain ⟨h0, hp, hm⟩ := ringAgree hi h
  unfold ringLxsum
  by_cases hz : i = 0
  · subst hz
    rw [if_pos rfl, if_pos rfl]
    exact congrArg List.sum (List.map_congr_left fun t ht => by
      dsimp only
      obtain ⟨c1, c2, _⟩ := colAgree (k := k) (x := x) ht
      rw [h0 _ c1, h0 _ c2])
  · rw [if_neg hz, if_neg hz]
    exact congrArg List.sum (List.map_congr_left fun t ht => by
      dsimp only
      obtain ⟨c1, c2, _⟩ := colAgree (k := k) (x := x) ht
      rw [hp _ c1, hp _ c2, hm _ c1, hm _ c2])

/-- The partial sum `ringLx2sum` reads only pixels within `ncut - 1` of `(x, y)`. -/
lemma ringLx2sum_congr {k : GKernel} {p q : ℤ → ℤ → ℤ} {x y : ℤ} (sky : ℤ)
    {i : ℕ} (hi : i < k.ncut)
    (h : ∀ r c : ℤ, |r - y| < (k.ncut : ℤ) → |c - x| < (k.ncut : ℤ) →
      p r c = q r c) :
    ringLx2sum k p x y sky i = ringLx2sum k q x y sky i := by
  obtain ⟨h0, hp, hm⟩ := ringAgree hi h
  unfold ringLx2sum
  by_cases hz : i = 0
  · subst hz
    rw [if_pos rfl, if_pos rfl]
    exact congrArg List.sum (List.map_congr_left fun t ht => by
      dsimp only
      obtain ⟨c1, c2, _⟩ := colAgree (k := k) (x := x) ht
      rw [h0 _ c1, h0 _ c2])
  · rw [if_neg hz, if_neg hz]
    exact congrArg List.sum (List.map_congr_left fun t ht => by
      dsimp only
      obtain ⟨c1, c2, _⟩ := colAgree (k := k) (x := x) ht
      rw [hp _ c1, hp _ c2, hm _ c1, hm _ c2])

/-- The whole of `lgausmom` reads only pixels within `ncut - 1` of
`(x, y)`. -/
lemma lgausmom_congr {k : GKernel} {p q : ℤ → ℤ → ℤ} {x y : ℤ}
    (xsz ysz sky : ℤ)
    (h : ∀ r c : ℤ, |r - y| < (k.ncut : ℤ) → |c - x| < (k.ncut : ℤ) →
      p r c = q r c) :
    lgausmom p xsz ysz x y sky k = lgausmom q xsz ysz x y sky k := by
  have hacc : lgAccum k p x y sky = lgAccum k q x y sky := by
    unfold lgAccum
    refine List.foldl_ext _ _ _ fun a i hi => ?_
    have hi' := List.mem_range.mp hi
    unfold ringContrib
    rw [ringLsum_congr sky hi' h, ringLxsum_congr sky hi' h,
      ringLx2sum_congr sky hi' h]
  have hfin : lgSumsFinal k p x y sky = lgSumsFinal k q x y sky := by
    unfold lgSumsFinal
    rw [hacc]
  unfold lgausmom
  rw [hfin]

/-- On a constant image, `lgausmom` does not depend on the evaluation
point, provided both points pass the row edge checks. -/
lemma lgausmom_const (c xsz ysz sky x y x' y' : ℤ) (k : GKernel)
    (hy1 : ¬((k.ncut : ℤ) + y > ysz)) (hy2 : ¬((k.ncut : ℤ) > y + 1))
    (hy1' : ¬((k.ncut : ℤ) + y' > ysz)) (hy2' : ¬((k.ncut : ℤ) > y' + 1)) :
    lgausmom (fun _ _ => c) xsz ysz x' y' sky k =
      lgausmom (fun _ _ => c) xsz ysz x y sky k := by
  have hs : lgSumsFinal k (fun _ _ => c) x' y' sky =
      lgSumsFinal k (fun _ _ => c) x y sky := rfl
  simp only [lgausmom, if_neg hy1, if_neg hy2, if_neg hy1', if_neg hy2', hs]

/-- If the 3x3 scan returns a complete grid, the central entry is the
result of `lgausmom` at the centre. -/
lemma scan3_center {p : ℤ → ℤ → ℤ} {xsz ysz x y sky : ℤ} {k : GKernel}
    {v00 v01 v02 v10 v11 v12 v20 v21 v22 : GMom}
    (h : scan3 p xsz ysz x y sky k =
      .ok (.grid v00 v01 v02 v10 v11 v12 v20 v21 v22)) :
    lgausmom p xsz ysz x y sky k = .ok v11 := by
  unfold scan3 at h
  cases hc : lgausmom p xsz ysz x y sky k with
  | error e => simp [hc] at h
  | ok c =>
  simp only [hc] at h
  cases h00 : lgausmom p xsz ysz (x - 1) (y - 1) sky k with
  | error e => simp [h00] at h
  | ok w00 =>
  simp only [h00] at h
  by_cases hb0 : w00.g_filval > c.g_filval
  · simp [if_pos hb0] at h
  rw [if_neg hb0] at h
  cases h01 : lgausmom p xsz ysz x (y - 1) sky k with
  | error e => simp [h01] at h
  | ok w01 =>
  simp only [h01] at h
  by_cases hb1 : w01.g_filval > c.g_filval
  · simp [if_pos hb1] at h
  rw [if_neg hb1] at h
  cases h02 : lgausmom p xsz ysz (x + 1) (y - 1) sky k with
  | error e => simp [h02] at h
  | ok w02 =>
  simp only [h02] at h
  by_cases hb2 : w02.g_filval > c.g_filval
  · simp [if_pos hb2] at h
  rw [if_neg hb2] at h
  cases h10 : lgausmom p xsz ysz (x - 1) y sky k with
  | error e => simp [h10] at h
  | ok w10 =>
  simp only [h10] at h
  by_cases hb3 : w10.g_filval > c.g_filval
  · simp [if_pos hb3] at h
  rw [if_neg hb3] at h
  cases h12 : lgausmom p xsz ysz (x + 1) y sky k with
  | error e => simp [h12] at h
  | ok w12 =>
  simp only [h12] at h
  by_cases hb4 : w12.g_filval > c.g_filval
  · simp [if_pos hb4] at h
  rw [if_neg hb4] at h
  cases h20 : lgausmom p xsz ysz (x - 1) (y + 1) sky k with
  | error e => simp [h20] at h
  | ok w20 =>
  simp only [h20] at h
  by_cases hb5 : w20.g_filval > c.g_filval
  · simp [if_pos hb5] at h
  rw [if_neg hb5] at h
  cases h21 : lgausmom p xsz ysz x (y + 1) sky k with
  | error e => simp [h21] at h
  | ok w21 =>
  simp only [h21] at h
  by_cases hb6 : w21.g_filval > c.g_filval
  · simp [if_pos hb6] at h
  rw [if_neg hb6] at h
  cases h22 : lgausmom p xsz ysz (x + 1) (y + 1) sky k with
  | error e => simp [h22] at h
  | ok w22 =>
  simp only [h22] at h
  by_cases hb7 : w22.g_filval > c.g_filval
  · simp [if_pos hb7] at h
  rw [if_neg hb7] at h
  simp only [Except.ok.injEq, ScanRes.grid.injEq] at h
  obtain ⟨-, -, -, -, h5, -, -, -, -⟩ := h
  rw [h5]

/-- If all nine evaluations around the centre return the same record,
the 3x3 scan returns the uniform grid. -/
lemma scan3_const {p : ℤ → ℤ → ℤ} {xsz ysz x y sky : ℤ} {k : GKernel}
    {g : GMom}
    (hc : lgausmom p xsz ysz x y sky k = .ok g)
    (h00 : lgausmom p xsz ysz (x - 1) (y - 1) sky k = .ok g)
    (h01 : lgausmom p xsz ysz x (y - 1) sky k = .ok g)
    (h02 : lgausmom p xsz ysz (x + 1) (y - 1) sky k = .ok g)
    (h10 : lgausmom p xsz ysz (x - 1) y sky k = .ok g)
    (h12 : lgausmom p xsz ysz (x + 1) y sky k = .ok g)
    (h20 : lgausmom p xsz ysz (x - 1) (y + 1) sky k = .ok g)
    (h21 : lgausmom p xsz ysz x (y + 1) sky k = .ok g)
    (h22 : lgausmom p xsz ysz (x + 1) (y + 1) sky k = .ok g) :
    scan3 p xsz ysz x y sky k = .ok (.grid g g g g g g g g g) := by
  unfold scan3
  simp only [hc, h00, h01, h02, h10, h12, h20, h21, h22, gt_iff_lt,
    lt_self_iff_false, if_false]

/-- On success, the interpolation stage returns exactly the retry count
it was given. -/
lemma focInterp_ret {x y : ℤ} {ret : ℕ}
    {v00 v01 v02 v10 v11 v12 v20 v21 v22 : GMom} {m : FocMom} {r : ℕ}
    (h : focInterp x y ret v00 v01 v02 v10 v11 v12 v20 v21 v22 = .ok (m, r)) :
    r = ret := by
  unfold focInterp at h
  dsimp only at h
  by_cases h1 : 2 * v11.g_filval - v12.g_filval - v10.g_filval < EPSq
  · rw [if_pos h1] at h; exact absurd h (by simp)
  rw [if_neg h1] at h
  by_cases h2 : 2 * v11.g_filval - v21.g_filval - v01.g_filval < EPSq
  · rw [if_pos h2] at h; exact absurd h (by simp)
  rw [if_neg h2] at h
  by_cases h3 : 2 * v11.g_filval - v22.g_filval - v00.g_filval < EPSq
  · rw [if_pos h3] at h; exact absurd h (by simp)
  rw [if_neg h3] at h
  by_cases h4 : 2 * v11.g_filval - v20.g_filval - v02.g_filval < EPSq
  · rw [if_pos h4] at h; exact absurd h (by simp)
  rw [if_neg h4] at h
  simp only [Except.ok.injEq, Prod.mk.injEq] at h
  exact h.2.symm

/-- The interpolation stage returns the flat-peak error exactly when one
of the four directional curvatures is below the threshold. -/
lemma focInterp_err3_iff (x y : ℤ) (ret : ℕ)
    (v00 v01 v02 v10 v11 v12 v20 v21 v22 : GMom) :
    focInterp x y ret v00 v01 v02 v10 v11 v12 v20 v21 v22 = .error (-3) ↔
      (2 * v11.g_filval - v12.g_filval - v10.g_filval < EPSq ∨
        2 * v11.g_filval - v21.g_filval - v01.g_filval < EPSq ∨
        2 * v11.g_filval - v22.g_filval - v00.g_filval < EPSq ∨
        2 * v11.g_filval - v20.g_filval - v02.g_filval < EPSq) := by
  unfold focInterp
  dsimp only
  by_cases h1 : 2 * v11.g_filval - v12.g_filval - v10.g_filval < EPSq
  · simp [if_pos h1, h1]
  rw [if_neg h1]
  by_cases h2 : 2 * v11.g_filval - v21.g_filval - v01.g_filval < EPSq
  · simp [if_pos h2, h1, h2]
  rw [if_neg h2]
  by_cases h3 : 2 * v11.g_filval - v22.g_filval - v00.g_filval < EPSq
  · simp [if_pos h3, h1, h2, h3]
  rw [if_neg h3]
  by_cases h4 : 2 * v11.g_filval - v20.g_filval - v02.g_filval < EPSq
  · simp [if_pos h4, h1, h2, h3, h4]
  rw [if_neg h4]
  simp [h1, h2, h3, h4]

/-- On success the returned try count is at least the tries already burnt
at entry and stays strictly below `FINDERR`. -/
lemma focGo_ok_bound :
    ∀ (gas : ℕ) (p : ℤ → ℤ → ℤ) (xsz ysz sky : ℤ) (k : GKernel)
      (x y : ℤ) (m : FocMom) (r : ℕ),
      focGo p xsz ysz sky k x y gas = .ok (m, r) →
      FINDERR - gas ≤ r ∧ r < FINDERR := by
  intro gas
  induction gas with
  | zero => intro p xsz ysz sky k x y m r h; simp [focGo] at h
  | succ gas ih =>
    intro p xsz ysz sky k x y m r h
    simp only [focGo] at h
    by_cases hedge : (x < (k.ncut : ℤ) ∨ y < (k.ncut : ℤ) ∨
        x > xsz - (k.ncut : ℤ) - 1 ∨ y > ysz - (k.ncut : ℤ) - 1)
    · rw [if_pos hedge] at h; exact absurd h (by simp)
    rw [if_neg hedge] at h
    cases hscan : scan3 p xsz ysz x y sky k with
    | error e => simp [hscan] at h
    | ok sres =>
      simp only [hscan] at h
      cases sres with
      | restart dx dy =>
        obtain ⟨h1, h2⟩ := ih p xsz ysz sky k (x + dx) (y + dy) m r h
        exact ⟨le_trans (Nat.sub_le_sub_left (Nat.le_succ gas) FINDERR) h1, h2⟩
      | grid v00 v01 v02 v10 v11 v12 v20 v21 v22 =>
        have hr := focInterp_ret h
        subst hr
        exact ⟨le_refl _, Nat.sub_lt (by decide) (Nat.succ_pos gas)⟩

/-- C6 (amended): the retry loop of `atFindFocMom` is budgeted by
`FINDERR = 15`: a run that has burnt the whole budget fails with status
`-1`, which is the same status value as the edge-proximity failure (not a
distinct code); a successful run returns the number of tries consumed,
which is at least the tries burnt at entry and strictly below 15; and
each brighter-neighbour restart re-enters the loop at the neighbour with
one unit of budget consumed. -/
theorem focmom_retry_behavior :
    (∀ (p : ℤ → ℤ → ℤ) (xsz ysz sky : ℤ) (k : GKernel) (x y : ℤ),
      focGo p xsz ysz sky k x y 0 = .error (-1)) ∧
    (∀ (p : ℤ → ℤ → ℤ) (xsz ysz sky : ℤ) (k : GKernel) (x y : ℤ) (gas : ℕ),
      (x < (k.ncut : ℤ) ∨ y < (k.ncut : ℤ) ∨
        x > xsz - (k.ncut : ℤ) - 1 ∨ y > ysz - (k.ncut : ℤ) - 1) →
      focGo p xsz ysz sky k x y (gas + 1) = .error (-1)) ∧
    (∀ (p : ℤ → ℤ → ℤ) (xsz ysz sky : ℤ) (k : GKernel) (x y : ℤ)
        (gas : ℕ) (m : FocMom) (r : ℕ),
      focGo p xsz ysz sky k x y gas = .ok (m, r) →
      FINDERR - gas ≤ r ∧ r < FINDERR) ∧
    (∀ (p : ℤ → ℤ → ℤ) (xsz ysz sky : ℤ) (k : GKernel) (x y dx dy : ℤ)
        (gas : ℕ),
      ¬(x < (k.ncut : ℤ) ∨ y < (k.ncut : ℤ) ∨
        x > xsz - (k.ncut : ℤ) - 1 ∨ y > ysz - (k.ncut : ℤ) - 1) →
      scan3 p xsz ysz x y sky k = .ok (.restart dx dy) →
      focGo p xsz ysz sky k x y (gas + 1) =
        focGo p xsz ysz sky k (x + dx) (y + dy) gas) := by
  refine ⟨fun p xsz ysz sky k x y => rfl, ?_, ?_, ?_⟩
  · intro p xsz ysz sky k x y gas h
    simp only [focGo]
    rw [if_pos h]
  · intro p xsz ysz sky k x y gas m r h
    exact focGo_ok_bound gas p xsz ysz sky k x y m r h
  · intro p xsz ysz sky k x y dx dy gas hedge hscan
    simp only [focGo]
    rw [if_neg hedge]
    simp only [hscan]

/-- Witness for `focmom_retry_behavior`: the peaked image is found with
zero tries, and the bound conjunct applies to it. -/
theorem focmom_retry_behavior_witness : FINDERR - 15 ≤ 0 ∧ 0 < FINDERR :=
  focmom_retry_behavior.2.2.1 pPeak 100 100 0 kOne 20 20 15
    ⟨41 / 2, 41 / 2, -1, -1, -1, -1, 2⟩ 0 (by decide)

/-- Counterexample to C6 as stated: on the ramp image the retry budget is
exhausted (15 relocations toward ever-brighter columns) and the function
returns status `-1` — exactly the status it returns for a star too close
to the edge, not a distinct iteration-limit code. -/
theorem focmom_limit_status_counterexample :
    atFindFocMom pRamp 100 100 20 20 0 kOne = .error (-1) ∧
    atFindFocMom pRamp 100 100 0 20 0 kOne = .error (-1) := by
  exact ⟨by decide, by decide⟩

/-- C7 (amended): on a perfectly flat patch whose moment evaluation
succeeds (nonzero smoothed integral) `atFindFocMom` fails with the
flat-peak status `-3`; and in general, once a 3x3 scan confirms the
centre as a local maximum, the result is the flat-peak failure exactly
when one of the four directional curvatures `2*vc - v_plus - v_minus`
(horizontal, vertical, two diagonals) is below the threshold `1e-10`. -/
theorem focmom_flatpeak :
    (∀ (c xsz ysz sky x y : ℤ) (k : GKernel) (gas : ℕ) (g : GMom),
      ¬(x < (k.ncut : ℤ) ∨ y < (k.ncut : ℤ) ∨
        x > xsz - (k.ncut : ℤ) - 1 ∨ y > ysz - (k.ncut : ℤ) - 1) →
      lgausmom (fun _ _ => c) xsz ysz x y sky k = .ok g →
      focGo (fun _ _ => c) xsz ysz sky k x y (gas + 1) = .error (-3)) ∧
    (∀ (p : ℤ → ℤ → ℤ) (xsz ysz sky x y : ℤ) (k : GKernel) (gas : ℕ)
        (v00 v01 v02 v10 v11 v12 v20 v21 v22 : GMom),
      ¬(x < (k.ncut : ℤ) ∨ y < (k.ncut : ℤ) ∨
        x > xsz - (k.ncut : ℤ) - 1 ∨ y > ysz - (k.ncut : ℤ) - 1) →
      scan3 p xsz ysz x y sky k =
        .ok (.grid v00 v01 v02 v10 v11 v12 v20 v21 v22) →
      (focGo p xsz ysz sky k x y (gas + 1) = .error (-3) ↔
        (2 * v11.g_filval - v12.g_filval - v10.g_filval < EPSq ∨
          2 * v11.g_filval - v21.g_filval - v01.g_filval < EPSq ∨
          2 * v11.g_filval - v22.g_filval - v00.g_filval < EPSq ∨
          2 * v11.g_filval - v20.g_filval - v02.g_filval < EPSq))) := by
  constructor
  · intro c xsz ysz sky x y k gas g hedge hok
    have hed := hedge
    push_neg at hed
    obtain ⟨hx1, hy1, hx2, hy2⟩ := hed
    have cy1 : ¬((k.ncut : ℤ) + y > ysz) := by omega
    have cy2 : ¬((k.ncut : ℤ) > y + 1) := by omega
    have cm1 : ¬((k.ncut : ℤ) + (y - 1) > ysz) := by omega
    have cm2 : ¬((k.ncut : ℤ) > (y - 1) + 1) := by omega
    have cp1 : ¬((k.ncut : ℤ) + (y + 1) > ysz) := by omega
    have cp2 : ¬((k.ncut : ℤ) > (y + 1) + 1) := by omega
    have h00 := (lgausmom_const c xsz ysz sky x y (x - 1) (y - 1) k
      cy1 cy2 cm1 cm2).trans hok
    have h01 := (lgausmom_const c xsz ysz sky x y x (y - 1) k
      cy1 cy2 cm1 cm2).trans hok
    have h02 := (lgausmom_const c xsz ysz sky x y (x + 1) (y - 1) k
      cy1 cy2 cm1 cm2).trans hok
    have h10 := (lgausmom_const c xsz ysz sky x y (x - 1) y k
      cy1 cy2 cy1 cy2).trans hok
    have h12 := (lgausmom_const c xsz ysz sky x y (x + 1) y k
      cy1 cy2 cy1 cy2).trans hok
    have h20 := (lgausmom_const c xsz ysz sky x y (x - 1) (y + 1) k
      cy1 cy2 cp1 cp2).trans hok
    have h21 := (lgausmom_const c xsz ysz sky x y x (y + 1) k
      cy1 cy2 cp1 cp2).trans hok
    have h22 := (lgausmom_const c xsz ysz sky x y (x + 1) (y + 1) k
      cy1 cy2 cp1 cp2).trans hok
    have hscan := scan3_const hok h00 h01 h02 h10 h12 h20 h21 h22
    simp only [focGo]
    rw [if_neg hedge]
    simp only [hscan]
    exact (focInterp_err3_iff x y (FINDERR - (gas + 1)) g g g g g g g g g).mpr
      (Or.inl (by
        rw [show 2 * g.g_filval - g.g_filval - g.g_filval = 0 from by ring]
        norm_num [EPSq]))
  · intro p xsz ysz sky x y k gas v00 v01 v02 v10 v11 v12 v20 v21 v22
      hedge hscan
    simp only [focGo]
    rw [if_neg hedge]
    simp only [hscan]
    exact focInterp_err3_iff x y (FINDERR - (gas + 1))
      v00 v01 v02 v10 v11 v12 v20 v21 v22

/-- Witness for `focmom_flatpeak`: a constant-1 patch with zero sky has a
nonzero integral and is reported as a flat peak. -/
theorem focmom_flatpeak_witness :
    focGo (fun _ _ => 1) 100 100 0 kOne 20 20 15 = .error (-3) :=
  focmom_flatpeak.1 1 100 100 0 20 20 kOne 14 ⟨-1, -1, -1, -1, 32⟩
    (by decide) (by decide)

/-- Counterexample to C7 as stated: an all-zero flat patch (samples equal
to the sky) makes every `lgausmom` integral vanish, and `atFindFocMom`
returns the moment-evaluation status `-2`, not the flat-peak status `-3`
the claim demands for every flat patch. -/
theorem flat_patch_flatpeak_counterexample :
    atFindFocMom pFlat0 100 100 20 20 0 kOne = .error (-2) ∧
      atFindFocMom pFlat0 100 100 20 20 0 kOne ≠ .error (-3) := by
  exact ⟨by decide, by decide⟩

/-- C10: after a confirmed 3x3 local maximum with all four curvatures
admissible, `atFindFocMom` succeeds and its returned `filval` satisfies
`32 * filval = vc + 0.5*((sx*sx)/d2x + (sy*sy)/d2y)` where `vc` is the
`filval` that `lgausmom` itself returns for the same centre pixel — the
returned value is on a scale 32 times smaller than the curvature-corrected
peak estimate built from the raw evaluations. -/
theorem focmom_filval_scale :
    ∀ (p : ℤ → ℤ → ℤ) (xsz ysz sky x y : ℤ) (k : GKernel) (gas : ℕ)
      (v00 v01 v02 v10 v11 v12 v20 v21 v22 : GMom),
      ¬(x < (k.ncut : ℤ) ∨ y < (k.ncut : ℤ) ∨
        x > xsz - (k.ncut : ℤ) - 1 ∨ y > ysz - (k.ncut : ℤ) - 1) →
      scan3 p xsz ysz x y sky k =
        .ok (.grid v00 v01 v02 v10 v11 v12 v20 v21 v22) →
      ¬(2 * v11.g_filval - v12.g_filval - v10.g_filval < EPSq) →
      ¬(2 * v11.g_filval - v21.g_filval - v01.g_filval < EPSq) →
      ¬(2 * v11.g_filval - v22.g_filval - v00.g_filval < EPSq) →
      ¬(2 * v11.g_filval - v20.g_filval - v02.g_filval < EPSq) →
      lgausmom p xsz ysz x y sky k = .ok v11 ∧
      ∃ m : FocMom,
        focGo p xsz ysz sky k x y (gas + 1) = .ok (m, FINDERR - (gas + 1)) ∧
        32 * m.g_filval =
          v11.g_filval +
            ((v12.g_filval - v10.g_filval) / 2 *
                ((v12.g_filval - v10.g_filval) / 2) /
                (2 * v11.g_filval - v12.g_filval - v10.g_filval) +
              (v21.g_filval - v01.g_filval) / 2 *
                ((v21.g_filval - v01.g_filval) / 2) /
                (2 * v11.g_filval - v21.g_filval - v01.g_filval)) / 2 := by
  intro p xsz ysz sky x y k gas v00 v01 v02 v10 v11 v12 v20 v21 v22
    hedge hscan h1 h2 h3 h4
  refine ⟨scan3_center hscan, ?_⟩
  simp only [focGo]
  rw [if_neg hedge]
  simp only [hscan]
  unfold focInterp
  dsimp only
  rw [if_neg h1, if_neg h2, if_neg h3, if_neg h4]
  refine ⟨_, rfl, ?_⟩
  dsimp only
  ring

/-- Witness for `focmom_filval_scale` at the peaked image: the centre
evaluation of the confirmed grid is the raw `lgausmom` record. -/
theorem focmom_filval_scale_witness :
    lgausmom pPeak 100 100 20 20 0 kOne = .ok ⟨-1, -1, -1, -1, 64⟩ :=
  (focmom_filval_scale pPeak 100 100 0 20 20 kOne 14
    ⟨-1, -1, -1, -1, 32⟩ ⟨-1, -1, -1, -1, 32⟩ ⟨-1, -1, -1, -1, 32⟩
    ⟨-1, -1, -1, -1, 32⟩ ⟨-1, -1, -1, -1, 64⟩ ⟨-1, -1, -1, -1, 32⟩
    ⟨-1, -1, -1, -1, 32⟩ ⟨-1, -1, -1, -1, 32⟩ ⟨-1, -1, -1, -1, 32⟩
    (by decide) (by decide) (by decide) (by decide) (by decide)
    (by decide)).1

/-- C9: `lgausmom` performs no bounds check on the column coordinate or
on `xsz`: (i) whether it takes an edge exit is independent of both `x`
and `xsz`; (ii) its result is determined by the pixels in the square of
half-width `ncut - 1` around `(x, y)` — the columns `x - (ncut-1)` ..
`x + (ncut-1)` — wherever those fall; (iii) concretely, at `x = 0` with
`ncut = 2` and `xsz = 3` the result inspects column `-1`: two images that
agree on every column of `[0, xsz)` produce different outputs; and (iv)
only `atFindFocMom` guards the x direction, rejecting `x < ncut` with
status `-1` before any evaluation. -/
theorem lgausmom_x_unchecked :
    (∀ (p : ℤ → ℤ → ℤ) (xsz xsz' ysz x x' y sky : ℤ) (k : GKernel),
      isEdgeErr (lgausmom p xsz ysz x y sky k) =
        isEdgeErr (lgausmom p xsz' ysz x' y sky k)) ∧
    (∀ (p q : ℤ → ℤ → ℤ) (xsz ysz x y sky : ℤ) (k : GKernel),
      (∀ r c : ℤ, |r - y| < (k.ncut : ℤ) → |c - x| < (k.ncut : ℤ) →
        p r c = q r c) →
      lgausmom p xsz ysz x y sky k = lgausmom q xsz ysz x y sky k) ∧
    ((∀ r c : ℤ, 0 ≤ c → c < 3 → pHalf r c = pFlat1 r c) ∧
      lgausmom pHalf 3 10 0 5 0 kTwo ≠ lgausmom pFlat1 3 10 0 5 0 kTwo) ∧
    (∀ (p : ℤ → ℤ → ℤ) (xsz ysz sky x y : ℤ) (k : GKernel) (gas : ℕ),
      x < (k.ncut : ℤ) →
      focGo p xsz ysz sky k x y (gas + 1) = .error (-1)) := by
  refine ⟨?_, ?_, ⟨?_, by decide⟩, ?_⟩
  · intro p xsz xsz' ysz x x' y sky k
    by_cases hc : (y + 1 < (k.ncut : ℤ) ∨ ysz < (k.ncut : ℤ) + y)
    · rw [(edgeIffAux p xsz ysz x y sky k).mpr hc,
        (edgeIffAux p xsz' ysz x' y sky k).mpr hc]
    · rw [Bool.eq_false_iff.mpr fun hh =>
        hc ((edgeIffAux p xsz ysz x y sky k).mp hh),
        Bool.eq_false_iff.mpr fun hh =>
        hc ((edgeIffAux p xsz' ysz x' y sky k).mp hh)]
  · intro p q xsz ysz x y sky k h
    exact lgausmom_congr xsz ysz sky h
  · intro r c h1 h2
    simp [pHalf, pFlat1, h1]
  · intro p xsz ysz sky x y k gas h
    simp only [focGo]
    rw [if_pos (Or.inl h)]

/-- Witness for `lgausmom_x_unchecked`: the x-guard of `atFindFocMom`
fires at `x = 0` for a two-tap kernel. -/
theorem lgausmom_x_unchecked_witness :
    focGo pFlat1 3 10 0 kTwo 0 5 1 = .error (-1) :=
  lgausmom_x_unchecked.2.2.2 pFlat1 3 10 0 0 5 kTwo 0 (by decide)

/-- C8: `atSetFSigma` fails with status `-1` exactly when `sigma <= 0` or
`sigma > 12`; on such a failure the cached state (arrays, `sig_ncut`,
`sigmagen`) is returned untouched, and any in-range sigma returns
status `0`. -/
theorem setfsigma_range_check :
    ∀ (σ : ℝ) (st : FilterState),
      ((atSetFSigma σ st).1 = -1 ↔ (σ ≤ 0 ∨ 12 < σ)) ∧
      ((σ ≤ 0 ∨ 12 < σ) → (atSetFSigma σ st).2 = st) ∧
      (¬(σ ≤ 0 ∨ 12 < σ) → (atSetFSigma σ st).1 = 0) := by
  intro σ st
  by_cases h : σ ≤ 0 ∨ 12 < σ
  · unfold atSetFSigma
    rw [if_pos h]
    exact ⟨⟨fun _ => h, fun _ => rfl⟩, fun _ => rfl, fun hn => absurd h hn⟩
  · unfold atSetFSigma
    rw [if_neg h]
    refine ⟨⟨fun h1 => ?_, fun hh => absurd hh h⟩,
      fun hh => absurd hh h, fun _ => ?_⟩
    · by_cases hm : σ = st.sigmagen
      · rw [if_pos hm] at h1
        exact absurd h1 (by norm_num)
      · rw [if_neg hm] at h1
        simp at h1
    · by_cases hm : σ = st.sigmagen
      · rw [if_pos hm]
      · rw [if_neg hm]

/-- Witness for `setfsigma_range_check`: `sigma = 0` and `sigma = 12.01`
fail leaving the state alone, `sigma = 12` succeeds. -/
theorem setfsigma_range_check_witness :
    (atSetFSigma 0 initFState).1 = -1 ∧
    (atSetFSigma 12.01 initFState).1 = -1 ∧
    (atSetFSigma 12.01 initFState).2 = initFState ∧
    (atSetFSigma 12 initFState).1 = 0 :=
  ⟨((setfsigma_range_check 0 initFState).1).mpr (Or.inl le_rfl),
   ((setfsigma_range_check 12.01 initFState).1).mpr (Or.inr (by norm_num)),
   (setfsigma_range_check 12.01 initFState).2.1 (Or.inr (by norm_num)),
   (setfsigma_range_check 12 initFState).2.2 (by
      rw [not_or]
      constructor <;> norm_num)⟩

/-- Characterisation of the `sig_ncut` trimming fold: starting from `a`,
the final value is the last index `i ≠ 0` of `[0, n)` whose second-order
tap is zero, or `a` if there is none. -/
lemma trimFold_spec (x2 : ℕ → ℤ) (a : ℕ) :
    ∀ n : ℕ,
      ((List.range n).foldl
          (fun acc i => if x2 i = 0 ∧ i ≠ 0 then i else acc) a = a ∧
        ∀ i, 0 < i → i < n → x2 i ≠ 0) ∨
      (0 < (List.range n).foldl
          (fun acc i => if x2 i = 0 ∧ i ≠ 0 then i else acc) a ∧
        (List.range n).foldl
          (fun acc i => if x2 i = 0 ∧ i ≠ 0 then i else acc) a < n ∧
        x2 ((List.range n).foldl
          (fun acc i => if x2 i = 0 ∧ i ≠ 0 then i else acc) a) = 0 ∧
        ∀ i, (List.range n).foldl
          (fun acc i => if x2 i = 0 ∧ i ≠ 0 then i else acc) a < i →
          i < n → x2 i ≠ 0) := by
  intro n
  induction n with
  | zero => exact Or.inl ⟨rfl, fun i h1 h2 => absurd h2 (by omega)⟩
  | succ n ih =>
    rw [List.range_succ, List.foldl_append, List.foldl_cons, List.foldl_nil]
    by_cases hn : x2 n = 0 ∧ n ≠ 0
    · rw [if_pos hn]
      exact Or.inr ⟨Nat.pos_of_ne_zero hn.2, Nat.lt_succ_self n, hn.1,
        fun i h1 h2 => absurd (by omega : i < i) (lt_irrefl i)⟩
    · rw [if_neg hn]
      rcases ih with ⟨he, hall⟩ | ⟨h0, hlt, hz, hall⟩
      · rw [he]
        refine Or.inl ⟨rfl, fun i h1 h2 => ?_⟩
        rcases Nat.lt_succ_iff_lt_or_eq.mp h2 with h | h
        · exact hall i h1 h
        · subst h
          intro hzz
          exact hn ⟨hzz, by omega⟩
      · refine Or.inr ⟨h0, Nat.lt_succ_of_lt hlt, hz, fun i h1 h2 => ?_⟩
        rcases Nat.lt_succ_iff_lt_or_eq.mp h2 with h | h
        · exact hall i h1 h
        · subst h
          intro hzz
          exact hn ⟨hzz, by omega⟩

/-- C4 (amended): after every successful regenerating `atSetFSigma` call,
`sig_ncut` is the largest index `i` in `(0, ncut)` whose second-order tap
is zero — or stays at `ncut = floor(4 sigma + 1.5)` when all of them are
nonzero (the code records the last zero tap, not the last nonzero one);
only the zeroth-order array is zeroed on `[ncut, SIZFIL)`, while the
first- and second-order arrays keep their previous contents from `ncut`
on. -/
theorem setfsigma_trim_behavior :
    ∀ (σ : ℝ) (st : FilterState), 0 < σ → σ ≤ 12 → σ ≠ st.sigmagen →
      (atSetFSigma σ st).1 = 0 ∧
      (((atSetFSigma σ st).2.k.ncut = genNcut σ ∧
         ∀ i, 0 < i → i < genNcut σ → (atSetFSigma σ st).2.k.x2fg i ≠ 0) ∨
       (0 < (atSetFSigma σ st).2.k.ncut ∧
         (atSetFSigma σ st).2.k.ncut < genNcut σ ∧
         (atSetFSigma σ st).2.k.x2fg ((atSetFSigma σ st).2.k.ncut) = 0 ∧
         ∀ i, (atSetFSigma σ st).2.k.ncut < i → i < genNcut σ →
           (atSetFSigma σ st).2.k.x2fg i ≠ 0)) ∧
      (∀ i, genNcut σ ≤ i → i < SIZFIL → (atSetFSigma σ st).2.k.fg i = 0) ∧
      (∀ i, genNcut σ ≤ i →
        (atSetFSigma σ st).2.k.xfg i = st.k.xfg i ∧
        (atSetFSigma σ st).2.k.x2fg i = st.k.x2fg i) := by
  intro σ st h0 h12 hne
  have hr : ¬(σ ≤ 0 ∨ 12 < σ) := by
    rw [not_or]
    exact ⟨not_le.mpr h0, not_lt.mpr h12⟩
  have hst : atSetFSigma σ st =
      (0, ⟨⟨genFg σ st.k.fg, genXfg σ st.k.xfg, genX2fg σ st.k.x2fg,
        trimNcut (genX2fg σ st.k.x2fg) (genNcut σ)⟩, σ⟩) := by
    unfold atSetFSigma
    rw [if_neg hr, if_neg hne]
  rw [hst]
  refine ⟨rfl, ?_, ?_, ?_⟩
  · exact trimFold_spec (genX2fg σ st.k.x2fg) (genNcut σ) (genNcut σ)
  · intro i hi1 hi2
    show genFg σ st.k.fg i = 0
    simp only [genFg]
    rw [if_neg (not_lt.mpr hi1), if_pos hi2]
  · intro i hi
    constructor
    · show genXfg σ st.k.xfg i = st.k.xfg i
      simp only [genXfg]
      rw [if_neg (not_lt.mpr hi)]
    · show genX2fg σ st.k.x2fg i = st.k.x2fg i
      simp only [genX2fg]
      rw [if_neg (not_lt.mpr hi)]

/-- Witness for `setfsigma_trim_behavior`: a regenerating call at
`sigma = 1` from the initial state succeeds. -/
theorem setfsigma_trim_behavior_witness :
    (atSetFSigma 1 initFState).1 = 0 :=
  (setfsigma_trim_behavior 1 initFState (by norm_num) (by norm_num)
    (by norm_num [initFState])).1

/-- At `sigma = 1` the kernel half-width is `ncut = floor(5.5) = 5`. -/
lemma genNcut_one : genNcut 1 = 5 := by
  unfold genNcut cint
  rw [if_pos (by norm_num)]
  have h55 : (4 * (1:ℝ) + 1.5) = 5.5 := by norm_num
  rw [h55]
  have : ⌊(5.5 : ℝ)⌋ = 5 := by
    rw [Int.floor_eq_iff]
    constructor <;> push_cast <;> norm_num
  rw [this]
  rfl

/-- At `sigma = 1` every in-range Gaussian value is at least `1/2`
(the edge offset is dominated by the Gaussian term). -/
lemma genGau_one_half (i : ℕ) (h1 : 0 < i) (h4 : i ≤ 4) :
    (1/2 : ℝ) ≤ genGau 1 i := by
  unfold genGau
  rw [genNcut_one]
  have hle : ((i:ℝ) * i * (0.5 / (1 * 1))) ≤
      (((5:ℕ):ℝ) * ((5:ℕ):ℝ) * (0.5 / (1 * 1))) := by
    have : (i : ℝ) ≤ 4 := by exact_mod_cast h4
    have h0 : (0:ℝ) ≤ (i:ℝ) := by positivity
    push_cast
    nlinarith
  have := Real.exp_le_exp.mpr (neg_le_neg hle)
  nlinarith [this]

/-- At `sigma = 1` the tap-1 Gaussian value is at least 1. -/
lemma genGau_one_one : (1 : ℝ) ≤ genGau 1 1 := by
  unfold genGau
  rw [genNcut_one]
  have e1 : ((1:ℕ):ℝ) * ((1:ℕ):ℝ) * (0.5 / (1 * 1)) = 0.5 := by norm_num
  have e2 : (((5:ℕ)):ℝ) * (((5:ℕ)):ℝ) * (0.5 / (1 * 1)) = 12.5 := by norm_num
  rw [e1, e2]
  have hlow : Real.exp (-1) ≤ Real.exp (-0.5) := by
    apply Real.exp_le_exp.mpr
    norm_num
  have hhigh : Real.exp (-12.5) ≤ Real.exp (-2) := by
    apply Real.exp_le_exp.mpr
    norm_num
  have hsq : Real.exp (-2) = Real.exp (-1) * Real.exp (-1) := by
    rw [← Real.exp_add]
    norm_num
  have hub : Real.exp (-1) ≤ (2.7182818283 : ℝ)⁻¹ := by
    rw [Real.exp_neg]
    exact inv_anti₀ (by norm_num) Real.exp_one_gt_d9.le
  have hlb : (2.7182818286 : ℝ)⁻¹ ≤ Real.exp (-1) := by
    rw [Real.exp_neg]
    exact inv_anti₀ (Real.exp_pos 1) Real.exp_one_lt_d9.le
  nlinarith [hlow, hhigh, hsq, hub, hlb, Real.exp_pos (-1)]

/-- At `sigma = 1` every second-order tap of `(0, ncut)` is nonzero. -/
lemma genX2fg_one_ne (i : ℕ) (h1 : 0 < i) (h4 : i ≤ 4) :
    genX2fg 1 (fun _ => 0) i ≠ 0 := by
  unfold genX2fg
  rw [genNcut_one, if_pos (by omega)]
  have hv : (1:ℝ) ≤ 2 * genGau 1 i * ((i : ℝ) * (i : ℝ) * (0.5 / (1 * 1))) := by
    by_cases hi1 : i = 1
    · subst hi1
      have := genGau_one_one
      push_cast
      nlinarith
    · have h2 : 2 ≤ i := by omega
      have hg := genGau_one_half i h1 h4
      have h2r : (2:ℝ) ≤ (i:ℝ) := by exact_mod_cast h2
      nlinarith
  unfold cint
  rw [if_pos (by linarith)]
  have hfl : (1:ℤ) ≤ ⌊2 * genGau 1 i * ((i : ℝ) * (i : ℝ) * (0.5 / (1 * 1)))⌋ :=
    Int.le_floor.mpr (by exact_mod_cast hv)
  omega

/-- The concrete post-state of the regenerating call at `sigma = 1`. -/
lemma atSetFSigma_one_state :
    atSetFSigma 1 initFState =
      (0, ⟨⟨genFg 1 (fun _ => 0), genXfg 1 (fun _ => 0),
        genX2fg 1 (fun _ => 0),
        trimNcut (genX2fg 1 (fun _ => 0)) (genNcut 1)⟩, 1⟩) := by
  unfold atSetFSigma
  rw [if_neg (by norm_num), if_neg (by norm_num [initFState])]
  rfl

/-- Counterexample to C4 as stated: at `sigma = 1` (from the pristine
state) every second-order tap in `(0, ncut)` is nonzero, so no trim
fires and `sig_ncut` stays `ncut = 5` — while the index of the last
nonzero second-order weight is `4` (tap 4 is nonzero, tap 5 is zero).
`sig_ncut` therefore does not equal the index of the last nonzero
second-order weight. -/
theorem setfsigma_trim_claim_false :
    (atSetFSigma 1 initFState).1 = 0 ∧
    (atSetFSigma 1 initFState).2.k.ncut = 5 ∧
    (atSetFSigma 1 initFState).2.k.x2fg 4 ≠ 0 ∧
    (atSetFSigma 1 initFState).2.k.x2fg 5 = 0 := by
  rw [atSetFSigma_one_state]
  refine ⟨rfl, ?_, ?_, ?_⟩
  · show trimNcut (genX2fg 1 (fun _ => 0)) (genNcut 1) = 5
    rw [genNcut_one]
    rcases trimFold_spec (genX2fg 1 (fun _ => 0)) 5 5 with ⟨he, -⟩ |
      ⟨h0, hlt, hz, -⟩
    · exact he
    · exact absurd hz (genX2fg_one_ne _ h0 (by omega))
  · show genX2fg 1 (fun _ => 0) 4 ≠ 0
    exact genX2fg_one_ne 4 (by norm_num) (by norm_num)
  · show genX2fg 1 (fun _ => 0) 5 = 0
    unfold genX2fg
    rw [genNcut_one, if_neg (lt_irrefl 5)]

/-- C1: for every run of the solver loop in which no per-iteration error
occurs (filter generation succeeds, the moment evaluation succeeds, and
all four moments stay inside `(-1, 1)` along the loop's own trajectory),
the loop returns success exactly when some iteration within the budget
passes one of the two convergence tests — `|xmom + ymom| < 0.01` before
the update, or `2*|sig_old - sig_new| < 0.01` after the multiplicative
update `sig * sqrt((2 + mom)/(2 - mom))` — and otherwise, after its 10
iterations, it fails with the iteration-limit status `-3`.
Instantiating `setF := atSetFSigma` and `ev` with `atFindFocMom` gives
the statement for `atSigmaFind` itself. -/
theorem sigmafind_convergence {S : Type} (setF : ℝ → S → Int × S)
    (ev : S → Except Int (FocMom × ℕ)) :
    ∀ (fuel : ℕ) (sig : ℝ) (st : S),
      sigNoErr setF ev sig st fuel →
      (((sigLoopGen setF ev sig st fuel).isOk = true) ↔
        sigConverges setF ev sig st fuel) ∧
      (¬ sigConverges setF ev sig st fuel →
        sigLoopGen setF ev sig st fuel = .error (-3)) := by
  intro fuel
  induction fuel with
  | zero =>
    intro sig st hne
    refine ⟨⟨fun hok => ?_, fun hc => ?_⟩, fun _ => rfl⟩
    · rw [show sigLoopGen setF ev sig st 0 = .error (-3) from rfl] at hok
      simp [Except.isOk, Except.toBool] at hok
    · exact absurd hc (by simp [sigConverges])
  | succ fuel ih =>
    intro sig st hne
    obtain ⟨hset, gm, n, hev, hrange, htail⟩ := hne
    obtain ⟨hx1, hx2, hy1, hy2, hp1, hp2, hm1, hm2⟩ := hrange
    have e1 : ¬(gm.g_xmom ≤ -1 ∨ 1 ≤ gm.g_xmom) := by
      rw [not_or]; exact ⟨not_le.mpr hx1, not_le.mpr hx2⟩
    have e2 : ¬(gm.g_ymom ≤ -1 ∨ 1 ≤ gm.g_ymom) := by
      rw [not_or]; exact ⟨not_le.mpr hy1, not_le.mpr hy2⟩
    have e3 : ¬(gm.g_pmom ≤ -1 ∨ 1 ≤ gm.g_pmom) := by
      rw [not_or]; exact ⟨not_le.mpr hp1, not_le.mpr hp2⟩
    have e4 : ¬(gm.g_mmom ≤ -1 ∨ 1 ≤ gm.g_mmom) := by
      rw [not_or]; exact ⟨not_le.mpr hm1, not_le.mpr hm2⟩
    have hloop : sigLoopGen setF ev sig st (fuel + 1) =
        (if |gm.g_xmom + gm.g_ymom| < SIGERRq then .ok (sig, gm)
         else if 2 * |sig - sigUpdate sig (gm.g_xmom + gm.g_ymom)| < SIGERR
           then .ok (sigUpdate sig (gm.g_xmom + gm.g_ymom), gm)
         else sigLoopGen setF ev (sigUpdate sig (gm.g_xmom + gm.g_ymom))
           (setF sig st).2 fuel) := by
      simp only [sigLoopGen]
      rw [if_neg (not_lt.mpr hset)]
      simp only [hev]
      rw [if_neg e1, if_neg e2, if_neg e3, if_neg e4]
    by_cases t1 : |gm.g_xmom + gm.g_ymom| < SIGERRq
    · rw [hloop, if_pos t1]
      have hc : sigConverges setF ev sig st (fuel + 1) :=
        ⟨gm, n, hev, Or.inl t1⟩
      exact ⟨⟨fun _ => hc, fun _ => rfl⟩, fun hn => absurd hc hn⟩
    · by_cases t2 : 2 * |sig - sigUpdate sig (gm.g_xmom + gm.g_ymom)| < SIGERR
      · rw [hloop, if_neg t1, if_pos t2]
        have hc : sigConverges setF ev sig st (fuel + 1) :=
          ⟨gm, n, hev, Or.inr (Or.inl t2)⟩
        exact ⟨⟨fun _ => hc, fun _ => rfl⟩, fun hn => absurd hc hn⟩
      · rw [hloop, if_neg t1, if_neg t2]
        obtain ⟨ihiff, iherr⟩ :=
          ih (sigUpdate sig (gm.g_xmom + gm.g_ymom)) (setF sig st).2
            (htail t1 t2)
        have hconv : sigConverges setF ev sig st (fuel + 1) ↔
            sigConverges setF ev (sigUpdate sig (gm.g_xmom + gm.g_ymom))
              (setF sig st).2 fuel := by
          constructor
          · rintro ⟨gm2, n2, hev2, hc⟩
            rw [hev] at hev2
            simp only [Except.ok.injEq, Prod.mk.injEq] at hev2
            obtain ⟨hgm, -⟩ := hev2
            subst hgm
            rcases hc with hc | hc | hc
            · exact absurd hc t1
            · exact absurd hc t2
            · exact hc
          · intro hc
            exact ⟨gm, n, hev, Or.inr (Or.inr hc)⟩
        refine ⟨?_, fun hn => iherr fun hc => hn (hconv.mpr hc)⟩
        rw [hconv]
        exact ihiff

/-- Witness for `sigmafind_convergence`: with a trivially succeeding
filter generator and an evaluator returning all-zero moments, the loop
converges (first test, first iteration) and returns success. -/
theorem sigmafind_convergence_witness :
    (sigLoopGen setFZero evZero 1.2 () 10).isOk = true := by
  have hnoerr : sigNoErr setFZero evZero 1.2 () 10 := by
    show sigNoErr setFZero evZero 1.2 () (9 + 1)
    refine ⟨le_refl 0, ⟨0, 0, 0, 0, 0, 0, 0⟩, 0, rfl, ?_, ?_⟩
    · exact ⟨by norm_num, by norm_num, by norm_num, by norm_num,
        by norm_num, by norm_num, by norm_num, by norm_num⟩
    · intro ht1 _
      exact absurd (by norm_num [SIGERRq]) ht1
  have hconv : sigConverges setFZero evZero 1.2 () 10 := by
    show sigConverges setFZero evZero 1.2 () (9 + 1)
    exact ⟨⟨0, 0, 0, 0, 0, 0, 0⟩, 0, rfl, Or.inl (by norm_num [SIGERRq])⟩
  exact (sigmafind_convergence setFZero evZero 10 1.2 () hnoerr).1.mpr hconv
